import Mathlib

/-!
Verification of `webp_to_webp` (src/server/plugin/plg_image_c/image_webp.c).

A shallow embedding of the WebP transcoding routine and of its helper
`passthrough_webp`, followed by the properties established about them.

Modelling conventions

* Bytes are `UInt8`; a C buffer `data` with `data_size` valid bytes is the list
  of the bytes stored in `data[0 .. data_size)` together with the cursor.
* `size_t` values are `Nat`.  The only arithmetic on them is
  `buffer_size - data_size`, `data_size += bytes_read` and `buffer_size *= 2`;
  `loopStateAt_inv` below shows `data_size < buffer_size ≤ 16777216` at every
  loop head, so none of them can wrap.
* `int` values are `Int`.  `-targetSize` wraps to 32 bits; integer division is
  truncating (`Int.tdiv`) and fails on a zero divisor.
* The C library and libwebp are the environment (`Env`): each external call is
  answered by an oracle, and each call that matters to the properties is logged
  in a trace of `Event`s.  `ERROR`/`DEBUG` logging is not modelled.
-/

namespace ImageWebp

abbrev Byte := UInt8

/-- Source line 7: `#define WEBP_QUALITY 75`. -/
def WEBP_QUALITY : Int := 75

/-- Source line 8: `#define INITIAL_BUFFER_SIZE 1024*64`. -/
def INITIAL_BUFFER_SIZE : Nat := 1024 * 64

/-- Source line 9: `#define MAX_BUFFER_SIZE 1024*1024*16`. -/
def MAX_BUFFER_SIZE : Nat := 1024 * 1024 * 16

/-- Smallest value of a 32-bit `int`. -/
def INT_MIN : Int := -2147483648

/-- Reduction of a mathematical integer to the 32-bit two's complement range. -/
def wrapInt (x : Int) : Int := (x + 2147483648) % 4294967296 - 2147483648

/-- C division of two `int`s: truncating, undefined (here `none`) on a zero
divisor and on `INT_MIN / -1`. -/
def cDiv (a b : Int) : Option Int :=
  if b = 0 then none
  else if a = INT_MIN ∧ b = -1 then none
  else some (Int.tdiv a b)

/-- Calls made by `webp_to_webp` that are visible to its environment. -/
inductive Event
  | malloc (size : Nat) (ok : Bool)
  | realloc (size : Nat) (ok : Bool)
  | free
  | WebPGetInfo
  | WebPInitDecoderConfig
  | WebPDecode (scaled_width scaled_height : Int) (ok : Bool)
  | WebPFreeDecBuffer
  | WebPEncodeRGBA (width height : Int) (produced : Bool)
  | WebPFree
  | fwrite (consumed : List Byte)
  | fflush
  deriving DecidableEq, Repr

/-- What `WebPDecode` leaves in `config.output` that the encoder reads. -/
structure DecBuffer where
  rgba : List Byte
  stride : Int
  deriving DecidableEq, Repr

/-- The input `FILE*`: the bytes not yet delivered, and for each coming `fread`
an upper bound on what it delivers (no bound once the list is used up). -/
structure InStream where
  pending : List Byte
  chunks : List Nat
  deriving DecidableEq, Repr

/-- The environment of one call of `webp_to_webp`. -/
structure Env where
  /-- Whether `fdopen(inputDesc, "rb")` returned a stream. -/
  inputOpen : Bool
  /-- Whether `fdopen(outputDesc, "wb")` returned a stream. -/
  outputOpen : Bool
  /-- Whether `malloc(buffer_size)` returned a buffer. -/
  mallocOk : Bool
  /-- Whether `realloc(data, n)` returns a buffer, as a function of `n`. -/
  reallocOk : Nat → Bool
  /-- The bytes the input stream holds. -/
  input : List Byte
  /-- Bounds on the successive `fread` results. -/
  chunks : List Nat
  /-- Number of bytes the output stream accepts before a write fails. -/
  writeLimit : Nat
  /-- Result of `WebPGetInfo`: width and height, or rejection. -/
  WebPGetInfo : List Byte → Option (Int × Int)
  /-- Whether `WebPInitDecoderConfig` succeeded. -/
  WebPInitDecoderConfig : Bool
  /-- Result of `WebPDecode` on the bytes with the configured scaled width and height:
  the decoded buffer when the status is `VP8_STATUS_OK`. -/
  WebPDecode : List Byte → Int → Int → Option DecBuffer
  /-- Result of `WebPEncodeRGBA rgba width height stride quality`: `output_data` when it
  is not `NULL`. -/
  WebPEncodeRGBA : List Byte → Int → Int → Int → Int → Option (List Byte)

/-- Model of `fread(ptr, 1, count, input)`: the bytes delivered and the stream after. -/
def fread (input : InStream) (count : Nat) : List Byte × InStream :=
  let n := match input.chunks with
    | [] => count
    | c :: _ => min c count
  (input.pending.take n, ⟨input.pending.drop n, input.chunks.tail⟩)

/-- Model of `fwrite(ptr, size, 1, output)` on a stream that accepts `limit` more bytes:
the return value (items written, 0 or 1) and the bytes the stream consumed. -/
def fwrite (limit : Nat) (ptr : List Byte) (size : Nat) : Nat × List Byte :=
  (if size ≠ 0 ∧ size ≤ limit then 1 else 0, (ptr.take size).take limit)

/-- Source lines 11-16.  `data` is `none` for a `NULL` pointer. -/
def passthrough_webp (limit : Nat) (data : Option (List Byte)) (data_size : Nat) :
    Int × List Event :=
  match data with
  | none => (1, [])
  | some d =>
    if data_size = 0 then (1, [])
    else
      let w := fwrite limit d data_size
      if w.1 ≠ 1 then (1, [Event.fwrite w.2])
      else (0, [Event.fwrite w.2, Event.fflush])

/-- The variables of the ingestion loop (lines 35-62) at a loop head. -/
structure LoopState where
  data : List Byte
  data_size : Nat
  buffer_size : Nat
  input : InStream
  trace : List Event
  deriving DecidableEq, Repr

/-- The three ways out of the ingestion loop. -/
inductive LoopExit
  /-- The read returned 0 (line 43). -/
  | done
  /-- The buffer is full at its maximal size (lines 47-51). -/
  | abort
  /-- The reallocation failed (lines 55-59). -/
  | reallocFailed
  deriving DecidableEq, Repr

/-- Result of one evaluation of the loop condition followed, when it holds, by
the loop body. -/
inductive Step
  | next (st : LoopState)
  | leave (how : LoopExit) (st : LoopState)
  deriving DecidableEq, Repr

/-- Source lines 43-62, one iteration. -/
def loopStep (reallocOk : Nat → Bool) (st : LoopState) : Step :=
  let r := fread st.input (st.buffer_size - st.data_size)
  let bytes_read := r.1.length
  if bytes_read > 0 then
    let data := st.data.take st.data_size ++ r.1
    let data_size := st.data_size + bytes_read
    if st.buffer_size - data_size = 0 then
      if st.buffer_size ≥ MAX_BUFFER_SIZE then
        Step.leave LoopExit.abort
          ⟨data, data_size, st.buffer_size, r.2, st.trace ++ [Event.free]⟩
      else
        let buffer_size := st.buffer_size * 2
        let buffer_size := if buffer_size > MAX_BUFFER_SIZE then MAX_BUFFER_SIZE else buffer_size
        if reallocOk buffer_size then
          Step.next ⟨data, data_size, buffer_size, r.2,
            st.trace ++ [Event.realloc buffer_size true]⟩
        else
          Step.leave LoopExit.reallocFailed
            ⟨data, data_size, buffer_size, r.2,
              st.trace ++ [Event.realloc buffer_size false, Event.free]⟩
    else
      Step.next ⟨data, data_size, st.buffer_size, r.2, st.trace⟩
  else
    Step.leave LoopExit.done ⟨st.data, st.data_size, st.buffer_size, r.2, st.trace⟩

/-- Source lines 43-62: the `while` loop, run for at most `fuel` evaluations of
its condition (`none` when the fuel does not suffice). -/
def ingestLoop (reallocOk : Nat → Bool) : Nat → LoopState → Option (LoopExit × LoopState)
  | 0, _ => none
  | fuel + 1, st =>
    match loopStep reallocOk st with
    | Step.next st' => ingestLoop reallocOk fuel st'
    | Step.leave how st' => some (how, st')

/-- The loop variables when the loop is first reached (lines 35-42, after a
successful `malloc`). -/
def initState (env : Env) : LoopState :=
  ⟨[], 0, INITIAL_BUFFER_SIZE, ⟨env.input, env.chunks⟩,
    [Event.malloc INITIAL_BUFFER_SIZE true]⟩

/-- The loop variables at the `k`-th evaluation of the loop condition, counted
from 0 (`none` when the loop has been left before). -/
def loopStateAt (env : Env) : Nat → Option LoopState
  | 0 => some (initState env)
  | k + 1 =>
    match loopStateAt env k with
    | none => none
    | some st =>
      match loopStep env.reallocOk st with
      | Step.next st' => some st'
      | Step.leave _ _ => none

/-- Source lines 86-89: `scale_factor`, `scaled_width`, `scaled_height`
(`none` when a division is undefined). -/
def scaleConfig (width height targetSize : Int) : Option (Int × Int × Int) :=
  match (if height > targetSize then cDiv height targetSize else some 1) with
  | none => none
  | some scale_factor =>
    match cDiv width scale_factor, cDiv height scale_factor with
    | some scaled_width, some scaled_height => some (scale_factor, scaled_width, scaled_height)
    | _, _ => none

/-- How a call of `webp_to_webp` ends. -/
inductive Outcome
  /-- The function returned `status`. -/
  | returned (status : Int) (trace : List Event)
  /-- An integer division by zero was executed (undefined behaviour). -/
  | divisionByZero (trace : List Event)
  deriving DecidableEq, Repr

/-- The block repeated at lines 67-73, 78-84, 94-100 and 114-120: pass the
input through, release it, and turn the passthrough status into the result. -/
def passthroughExit (limit : Nat) (trace : List Event) (data : List Byte) (data_size : Nat) :
    Outcome :=
  let p := passthrough_webp limit (some data) data_size
  let trace := trace ++ p.2 ++ [Event.free]
  if p.1 ≠ 0 then Outcome.returned 1 trace else Outcome.returned 0 trace

/-- Source lines 64-129 (STEP2 and STEP3), entered with the loop variables left
by the ingestion loop and the sign-normalised `targetSize`. -/
def transcode (env : Env) (targetSize : Int) (status : Int) (st : LoopState) : Outcome :=
  let bytes := st.data.take st.data_size
  let trace := st.trace ++ [Event.WebPGetInfo]
  match env.WebPGetInfo bytes with
  | none => passthroughExit env.writeLimit trace st.data st.data_size
  | some (width, height) =>
    let trace := trace ++ [Event.WebPInitDecoderConfig]
    if !env.WebPInitDecoderConfig then
      passthroughExit env.writeLimit trace st.data st.data_size
    else
      match scaleConfig width height targetSize with
      | none => Outcome.divisionByZero trace
      | some (_, scaled_width, scaled_height) =>
        match env.WebPDecode bytes scaled_width scaled_height with
        | none =>
          passthroughExit env.writeLimit
            (trace ++ [Event.WebPDecode scaled_width scaled_height false,
              Event.WebPFreeDecBuffer]) st.data st.data_size
        | some dec =>
          let trace := trace ++ [Event.WebPDecode scaled_width scaled_height true]
          match env.WebPEncodeRGBA dec.rgba scaled_width scaled_height dec.stride
              WEBP_QUALITY with
          | none =>
            passthroughExit env.writeLimit
              (trace ++ [Event.WebPEncodeRGBA scaled_width scaled_height false,
                Event.WebPFreeDecBuffer]) st.data st.data_size
          | some output_data =>
            let output_size := output_data.length
            let w := fwrite env.writeLimit output_data output_size
            Outcome.returned status
              (trace ++ [Event.WebPEncodeRGBA scaled_width scaled_height true,
                Event.fwrite w.2, Event.fflush, Event.WebPFree,
                Event.WebPFreeDecBuffer, Event.free])

/-- Source lines 23-25: sign normalisation of `targetSize`. -/
def normalizeTarget (targetSize : Int) : Int :=
  if targetSize < 0 then wrapInt (-targetSize) else targetSize

/-- Source lines 35-62 (STEP1): the ingestion loop from its initial state.  The
fuel is one more than the number of input bytes; `ingest_terminates` shows that
this always suffices. -/
def ingest (env : Env) : Option (LoopExit × LoopState) :=
  ingestLoop env.reallocOk (env.input.length + 1) (initState env)

/-- Source lines 18-130. -/
def webp_to_webp (env : Env) (targetSize : Int) : Option Outcome :=
  let targetSize := normalizeTarget targetSize
  let status : Int := 0
  if !env.inputOpen || !env.outputOpen then
    some (Outcome.returned 1 [])
  else if !env.mallocOk then
    some (Outcome.returned 1 [Event.malloc INITIAL_BUFFER_SIZE false])
  else
    match ingest env with
    | none => none
    | some (LoopExit.abort, st) => some (Outcome.returned 1 st.trace)
    | some (LoopExit.reallocFailed, st) => some (Outcome.returned 1 st.trace)
    | some (LoopExit.done, st) => some (transcode env targetSize status st)

/-- The bytes the output stream received, in order. -/
def written : List Event → List Byte
  | [] => []
  | Event.fwrite consumed :: rest => consumed ++ written rest
  | _ :: rest => written rest

/-- A test environment: everything succeeds, the probe reports `width` by
`height`, the decoder returns `dec`, the encoder returns `out`. -/
def goodEnv (input : List Byte) (width height : Int) (dec : DecBuffer) (out : List Byte) : Env where
  inputOpen := true
  outputOpen := true
  mallocOk := true
  reallocOk := fun _ => true
  input := input
  chunks := []
  writeLimit := 1000000000
  WebPGetInfo := fun _ => some (width, height)
  WebPInitDecoderConfig := true
  WebPDecode := fun _ _ _ => some dec
  WebPEncodeRGBA := fun _ _ _ _ _ => some out

/-- The buffered bytes followed by the undelivered ones are the input, the
cursor counts the buffered bytes, and the capacity is within the cap. -/
def Buffered (input : List Byte) (st : LoopState) : Prop :=
  st.data.length = st.data_size ∧ st.data ++ st.input.pending = input ∧
    st.buffer_size ≤ MAX_BUFFER_SIZE

/-- The `realloc` calls of a run, as events. -/
def reallocEvents (l : List (Nat × Bool)) : List Event :=
  l.map (fun p => Event.realloc p.1 p.2)

/-- Events of the allocator only. -/
def isMemoryEvent : Event → Bool
  | Event.malloc _ _ => true
  | Event.realloc _ _ => true
  | Event.free => true
  | _ => false

/-- An input of three bytes delivered in reads of two and one bytes. -/
def chunkedEnv : Env :=
  { goodEnv [1, 2, 3] 500 1000 ⟨[9, 9], 4⟩ [7, 7, 7] with chunks := [2, 1] }

/-- An input of exactly `MAX_BUFFER_SIZE` bytes, read as fast as the buffer allows. -/
def capEnv : Env := goodEnv (List.replicate 16777216 0) 1 1 ⟨[], 0⟩ []

/-- An input of `MAX_BUFFER_SIZE + 1` bytes. -/
def overCapEnv : Env := goodEnv (List.replicate 16777217 0) 1 1 ⟨[], 0⟩ []

/-- Successful `malloc` of the input buffer. -/
def isAllocation : Event → Bool
  | Event.malloc _ true => true
  | _ => false

/-- A call of `WebPDecode`, whatever its status. -/
def isDecodeCall : Event → Bool
  | Event.WebPDecode _ _ _ => true
  | _ => false

/-- A call of `WebPEncodeRGBA` that left an output buffer. -/
def isEncoderOutput : Event → Bool
  | Event.WebPEncodeRGBA _ _ true => true
  | _ => false

/-- Scanning the trace from its start, a call of `WebPDecode` is met before any
`WebPFreeDecBuffer`. -/
def releasedOnlyAfterDecode : List Event → Bool
  | [] => true
  | Event.WebPDecode _ _ _ :: _ => true
  | Event.WebPFreeDecBuffer :: _ => false
  | _ :: rest => releasedOnlyAfterDecode rest

/-- A 500 x 1000 image that decodes and encodes. -/
def imageEnv : Env := goodEnv [1, 2, 3] 500 1000 ⟨[9, 9], 4⟩ [7, 7, 7]

/-- A 1 x 1000 image that decodes and encodes. -/
def narrowEnv : Env := goodEnv [1, 2, 3] 1 1000 ⟨[9, 9], 4⟩ [7, 7, 7]

/-- The image of `imageEnv` on an output stream that accepts a single byte. -/
def shortWriteEnv : Env := { imageEnv with writeLimit := 1 }

/-- An empty input, rejected by the probe. -/
def emptyEnv : Env :=
  { goodEnv [] 500 1000 ⟨[9, 9], 4⟩ [7, 7, 7] with WebPGetInfo := fun _ => none }

/-- The four recoverable failures of a run on the ingested `bytes`, with the
sign-normalised `targetSize`: the probe rejects the bytes, the configuration
cannot be initialised, the decoder is called and fails, or the encoder is
called and leaves no output. -/
def RecoverableFailure (env : Env) (targetSize : Int) (bytes : List Byte) : Prop :=
  env.WebPGetInfo bytes = none ∨
  (∃ wh, env.WebPGetInfo bytes = some wh ∧ env.WebPInitDecoderConfig = false) ∨
  (∃ w h sf sw sh, env.WebPGetInfo bytes = some (w, h) ∧ env.WebPInitDecoderConfig = true ∧
    scaleConfig w h targetSize = some (sf, sw, sh) ∧ env.WebPDecode bytes sw sh = none) ∨
  (∃ w h sf sw sh dec, env.WebPGetInfo bytes = some (w, h) ∧
    env.WebPInitDecoderConfig = true ∧ scaleConfig w h targetSize = some (sf, sw, sh) ∧
    env.WebPDecode bytes sw sh = some dec ∧
    env.WebPEncodeRGBA dec.rgba sw sh dec.stride WEBP_QUALITY = none)

/-- A text input that the probe rejects. -/
def textEnv : Env :=
  { goodEnv [104, 105, 33] 500 1000 ⟨[9, 9], 4⟩ [7, 7, 7] with WebPGetInfo := fun _ => none }

/-- An image for which `WebPInitDecoderConfig` fails. -/
def configFailEnv : Env := { imageEnv with WebPInitDecoderConfig := false }

/-- An image that the decoder fails on. -/
def decodeFailEnv : Env := { imageEnv with WebPDecode := fun _ _ _ => none }

/-- An image for which the encoder leaves no output. -/
def encodeFailEnv : Env := { imageEnv with WebPEncodeRGBA := fun _ _ _ _ _ => none }

/-- The release discipline on the part of a trace that follows the ingestion:
one `free`, one `WebPFreeDecBuffer` exactly when the decoder was called and none
ahead of that call, one `WebPFree` exactly when the encoder left an output. -/
def OwnedTail (tail : List Event) : Prop :=
  tail.count Event.free = 1 ∧ tail.any isAllocation = false ∧
    tail.count Event.WebPFreeDecBuffer = (if tail.any isDecodeCall then 1 else 0) ∧
    releasedOnlyAfterDecode tail = true ∧
    tail.count Event.WebPFree = (if tail.any isEncoderOutput then 1 else 0)

/-- The trace of the full-success run of `imageEnv` with `targetSize = 500`. -/
def successTrace : List Event :=
  [Event.malloc 65536 true, Event.WebPGetInfo, Event.WebPInitDecoderConfig,
    Event.WebPDecode 250 500 true, Event.WebPEncodeRGBA 250 500 true,
    Event.fwrite [7, 7, 7], Event.fflush, Event.WebPFree, Event.WebPFreeDecBuffer,
    Event.free]

/-! The input stream -/

theorem fread_length_le (s : InStream) (count : Nat) : (fread s count).1.length ≤ count := by
  unfold fread
  cases s.chunks with
  | nil => simp [List.length_take]
  | cons c cs =>
    simp only [List.length_take]
    omega

theorem fread_append (s : InStream) (count : Nat) :
    (fread s count).1 ++ (fread s count).2.pending = s.pending := by
  simp [fread, List.take_append_drop]

theorem fread_chunks (s : InStream) (count : Nat) :
    (fread s count).2.chunks = s.chunks.tail := by
  simp [fread]

theorem fread_pending_length (s : InStream) (count : Nat) :
    (fread s count).2.pending.length + (fread s count).1.length = s.pending.length := by
  have h := congrArg List.length (fread_append s count)
  rw [List.length_append] at h
  omega

/-- A read that asks for at least one byte from a stream whose reads are never
empty before the end returns nothing only at the end of the input. -/
theorem fread_eq_nil (s : InStream) (count : Nat) (hc : 0 < count)
    (hch : ∀ c ∈ s.chunks, 1 ≤ c) (h : (fread s count).1 = []) : s.pending = [] := by
  unfold fread at h
  cases hs : s.chunks with
  | nil =>
    rw [hs] at h
    rcases List.take_eq_nil_iff.mp h with h0 | h0
    · dsimp only at h0
      omega
    · exact h0
  | cons c cs =>
    rw [hs] at h
    have h1 : 1 ≤ c := hch c (by simp [hs])
    rcases List.take_eq_nil_iff.mp h with h0 | h0
    · dsimp only at h0
      omega
    · exact h0

/-! One iteration of the ingestion loop -/

theorem loopStep_next_pending {ro : Nat → Bool} {st st' : LoopState}
    (h : loopStep ro st = Step.next st') :
    st'.input.pending.length < st.input.pending.length ∧
      st'.input.chunks = st.input.chunks.tail := by
  have hlen := fread_pending_length st.input (st.buffer_size - st.data_size)
  have hch := fread_chunks st.input (st.buffer_size - st.data_size)
  unfold loopStep at h
  dsimp only at h
  split_ifs at h with h1 h2 h3 h4
  all_goals
    injection h with h
    subst h
    dsimp only
    exact ⟨by omega, hch⟩

theorem loopStep_next {ro : Nat → Bool} {input : List Byte} {st st' : LoopState}
    (h : loopStep ro st = Step.next st') (hb : Buffered input st)
    (hr : st.data_size < st.buffer_size) :
    Buffered input st' ∧ st'.data_size < st'.buffer_size ∧
      (st'.buffer_size = st.buffer_size ∨
        st'.buffer_size = min (2 * st.buffer_size) MAX_BUFFER_SIZE) ∧
      ∃ l, st'.trace = st.trace ++ reallocEvents l := by
  obtain ⟨hl, hs, hc⟩ := hb
  have hle := fread_length_le st.input (st.buffer_size - st.data_size)
  have happ := fread_append st.input (st.buffer_size - st.data_size)
  have htake : st.data.take st.data_size = st.data := by
    rw [← hl]; exact List.take_length _
  unfold loopStep at h
  dsimp only at h
  rw [htake] at h
  split_ifs at h with h1 h2 h3 h4 h5
  · injection h with h
    subst h
    refine ⟨⟨?_, ?_, ?_⟩, ?_, ?_, ⟨[(MAX_BUFFER_SIZE, true)], rfl⟩⟩
    · simp [hl]
    · rw [List.append_assoc, happ, hs]
    · exact le_refl _
    · dsimp only; omega
    · right; dsimp only; omega
  · injection h with h
    subst h
    refine ⟨⟨?_, ?_, ?_⟩, ?_, ?_, ⟨[(st.buffer_size * 2, true)], rfl⟩⟩
    · simp [hl]
    · rw [List.append_assoc, happ, hs]
    · dsimp only; omega
    · dsimp only; omega
    · right; dsimp only; omega
  · injection h with h
    subst h
    refine ⟨⟨?_, ?_, ?_⟩, ?_, ?_, ⟨[], by simp [reallocEvents]⟩⟩
    · simp [hl]
    · rw [List.append_assoc, happ, hs]
    · exact hc
    · dsimp only; omega
    · left; rfl

theorem loopStep_leave {ro : Nat → Bool} {input : List Byte} {st st' : LoopState}
    {how : LoopExit} (h : loopStep ro st = Step.leave how st') (hb : Buffered input st)
    (hr : st.data_size < st.buffer_size) :
    Buffered input st' ∧
      (how = LoopExit.done →
        (fread st.input (st.buffer_size - st.data_size)).1 = [] ∧
          st'.data_size < st'.buffer_size ∧ st'.trace = st.trace ∧
          st'.input.pending = st.input.pending) ∧
      (how = LoopExit.abort →
        MAX_BUFFER_SIZE ≤ st'.data_size ∧ st'.trace = st.trace ++ [Event.free]) ∧
      (how = LoopExit.reallocFailed →
        ∃ n, ro n = false ∧ st'.trace = st.trace ++ reallocEvents [(n, false)] ++ [Event.free]) := by
  obtain ⟨hl, hs, hc⟩ := hb
  have hle := fread_length_le st.input (st.buffer_size - st.data_size)
  have happ := fread_append st.input (st.buffer_size - st.data_size)
  have htake : st.data.take st.data_size = st.data := by
    rw [← hl]; exact List.take_length _
  unfold loopStep at h
  dsimp only at h
  rw [htake] at h
  split_ifs at h with h1 h2 h3 h4 h5
  · injection h with h h'
    subst h h'
    refine ⟨⟨?_, ?_, hc⟩, ?_, ?_, ?_⟩
    · simp [hl]
    · rw [List.append_assoc, happ, hs]
    · intro hd; cases hd
    · intro _; exact ⟨by dsimp only; omega, rfl⟩
    · intro hd; cases hd
  · injection h with h h'
    subst h h'
    refine ⟨⟨?_, ?_, le_refl _⟩, ?_, ?_, ?_⟩
    · simp [hl]
    · rw [List.append_assoc, happ, hs]
    · intro hd; cases hd
    · intro hd; cases hd
    · intro _
      exact ⟨MAX_BUFFER_SIZE, by simpa using h5, by simp [reallocEvents]⟩
  · injection h with h h'
    subst h h'
    refine ⟨⟨?_, ?_, ?_⟩, ?_, ?_, ?_⟩
    · simp [hl]
    · rw [List.append_assoc, happ, hs]
    · dsimp only; omega
    · intro hd; cases hd
    · intro hd; cases hd
    · intro _
      have h6 : ¬ro (st.buffer_size * 2) = true := by assumption
      exact ⟨st.buffer_size * 2, by simpa using h6, by simp [reallocEvents]⟩
  · injection h with h h'
    subst h h'
    refine ⟨⟨hl, ?_, hc⟩, ?_, ?_, ?_⟩
    · dsimp only
      rw [← hs, ← happ]
      have : (fread st.input (st.buffer_size - st.data_size)).1 = [] := by
        apply List.eq_nil_of_length_eq_zero; omega
      rw [this, List.nil_append]
    · intro _
      have hnil : (fread st.input (st.buffer_size - st.data_size)).1 = [] := by
        apply List.eq_nil_of_length_eq_zero; omega
      refine ⟨hnil, hr, rfl, ?_⟩
      rw [hnil, List.nil_append] at happ
      exact happ
    · intro hd; cases hd
    · intro hd; cases hd

/-! The ingestion loop -/

/-- Every iteration that continues consumes input, so a fuel above the number
of undelivered bytes is never used up. -/
theorem ingestLoop_terminates (ro : Nat → Bool) :
    ∀ (fuel : Nat) (st : LoopState), st.input.pending.length < fuel →
      ∃ r, ingestLoop ro fuel st = some r := by
  intro fuel
  induction fuel with
  | zero => intro st h; omega
  | succ n ih =>
    intro st h
    unfold ingestLoop
    cases hstep : loopStep ro st with
    | next st' =>
      have := (loopStep_next_pending hstep).1
      exact ih st' (by omega)
    | leave how st' => exact ⟨_, rfl⟩

theorem ingestLoop_spec (ro : Nat → Bool) (input : List Byte) :
    ∀ (fuel : Nat) (st st' : LoopState) (how : LoopExit),
      Buffered input st → st.data_size < st.buffer_size →
      ingestLoop ro fuel st = some (how, st') →
      Buffered input st' ∧
        (how = LoopExit.done →
          st'.data_size < st'.buffer_size ∧
            (∃ l, st'.trace = st.trace ++ reallocEvents l) ∧
            ((∀ c ∈ st.input.chunks, 1 ≤ c) → st'.input.pending = [])) ∧
        (how = LoopExit.abort →
          MAX_BUFFER_SIZE ≤ st'.data_size ∧
            ∃ l, st'.trace = st.trace ++ reallocEvents l ++ [Event.free]) ∧
        (how = LoopExit.reallocFailed →
          (∃ n, ro n = false) ∧
            ∃ l, st'.trace = st.trace ++ reallocEvents l ++ [Event.free]) := by
  intro fuel
  induction fuel with
  | zero => intro st st' how _ _ h; simp [ingestLoop] at h
  | succ n ih =>
    intro st st' how hb hr h
    unfold ingestLoop at h
    cases hstep : loopStep ro st with
    | next st1 =>
      rw [hstep] at h
      dsimp only at h
      obtain ⟨hb1, hr1, _, l1, ht1⟩ := loopStep_next hstep hb hr
      obtain ⟨_, hch1⟩ := loopStep_next_pending hstep
      obtain ⟨hb', hd, ha, hf⟩ := ih st1 st' how hb1 hr1 h
      refine ⟨hb', ?_, ?_, ?_⟩
      · intro hh
        obtain ⟨h1, ⟨l, h2⟩, h3⟩ := hd hh
        refine ⟨h1, ⟨l1 ++ l, ?_⟩, ?_⟩
        · rw [h2, ht1]; simp [reallocEvents]
        · intro hc
          apply h3
          intro c hcm
          rw [hch1] at hcm
          exact hc c (List.mem_of_mem_tail hcm)
      · intro hh
        obtain ⟨h1, l, h2⟩ := ha hh
        exact ⟨h1, l1 ++ l, by rw [h2, ht1]; simp [reallocEvents]⟩
      · intro hh
        obtain ⟨h1, l, h2⟩ := hf hh
        exact ⟨h1, l1 ++ l, by rw [h2, ht1]; simp [reallocEvents]⟩
    | leave how1 st1 =>
      rw [hstep] at h
      dsimp only at h
      injection h with h
      injection h with h h'
      subst h h'
      obtain ⟨hb', hd, ha, hf⟩ := loopStep_leave hstep hb hr
      refine ⟨hb', ?_, ?_, ?_⟩
      · intro hh
        obtain ⟨h1, h2, h3, h4⟩ := hd hh
        refine ⟨h2, ⟨[], by simp [h3, reallocEvents]⟩, ?_⟩
        intro hc
        rw [h4]
        exact fread_eq_nil st.input _ (by omega) hc h1
      · intro hh
        obtain ⟨h1, h2⟩ := ha hh
        exact ⟨h1, [], by simp [h2, reallocEvents]⟩
      · intro hh
        obtain ⟨n, h1, h2⟩ := hf hh
        exact ⟨⟨n, h1⟩, [(n, false)], h2⟩

theorem initial_lt_max : INITIAL_BUFFER_SIZE < MAX_BUFFER_SIZE := by decide

theorem initState_buffered (env : Env) : Buffered env.input (initState env) :=
  ⟨rfl, rfl, Nat.le_of_lt initial_lt_max⟩

theorem initState_room (env : Env) : (initState env).data_size < (initState env).buffer_size := by
  show 0 < INITIAL_BUFFER_SIZE
  decide

/-- The ingestion loop always comes to an end within its fuel. -/
theorem ingest_terminates (env : Env) : ∃ r, ingest env = some r :=
  ingestLoop_terminates env.reallocOk _ _ (Nat.lt_succ_self _)

/-- What the ingestion loop leaves behind, by the way it is left. -/
theorem ingest_spec (env : Env) (how : LoopExit) (st : LoopState)
    (h : ingest env = some (how, st)) :
    Buffered env.input st ∧
      (how = LoopExit.done →
        st.data_size < st.buffer_size ∧
          (∃ l, st.trace = Event.malloc INITIAL_BUFFER_SIZE true :: reallocEvents l) ∧
          ((∀ c ∈ env.chunks, 1 ≤ c) → st.input.pending = [])) ∧
      (how = LoopExit.abort →
        MAX_BUFFER_SIZE ≤ st.data_size ∧
          ∃ l, st.trace =
            Event.malloc INITIAL_BUFFER_SIZE true :: (reallocEvents l ++ [Event.free])) ∧
      (how = LoopExit.reallocFailed →
        (∃ n, env.reallocOk n = false) ∧
          ∃ l, st.trace =
            Event.malloc INITIAL_BUFFER_SIZE true :: (reallocEvents l ++ [Event.free])) := by
  obtain ⟨hb, hd, ha, hf⟩ :=
    ingestLoop_spec env.reallocOk env.input _ _ st how (initState_buffered env)
      (initState_room env) h
  refine ⟨hb, ?_, ?_, ?_⟩
  · intro hh
    obtain ⟨h1, ⟨l, h2⟩, h3⟩ := hd hh
    exact ⟨h1, ⟨l, by rw [h2]; rfl⟩, h3⟩
  · intro hh
    obtain ⟨h1, l, h2⟩ := ha hh
    exact ⟨h1, l, by rw [h2]; simp [initState]⟩
  · intro hh
    obtain ⟨h1, l, h2⟩ := hf hh
    exact ⟨h1, l, by rw [h2]; simp [initState]⟩

/-- With reads that are never empty before the end of the input, a normal end
of the loop leaves exactly the input in the buffer. -/
theorem ingest_done_data (env : Env) (st : LoopState) (hch : ∀ c ∈ env.chunks, 1 ≤ c)
    (h : ingest env = some (LoopExit.done, st)) :
    st.data = env.input ∧ st.data_size = env.input.length := by
  obtain ⟨⟨hl, hs, _⟩, hd, _, _⟩ := ingest_spec env _ st h
  obtain ⟨_, _, hp⟩ := hd rfl
  rw [hp hch, List.append_nil] at hs
  exact ⟨hs, by rw [← hl, hs]⟩

/-- An input of at least `MAX_BUFFER_SIZE` bytes never leaves the loop through
its condition. -/
theorem ingest_not_done_at_cap (env : Env) (hch : ∀ c ∈ env.chunks, 1 ≤ c)
    (hsize : MAX_BUFFER_SIZE ≤ env.input.length) (st : LoopState) :
    ingest env ≠ some (LoopExit.done, st) := by
  intro h
  obtain ⟨_, hsz⟩ := ingest_done_data env st hch h
  obtain ⟨⟨_, _, hc⟩, hd, _, _⟩ := ingest_spec env _ st h
  obtain ⟨hr, _, _⟩ := hd rfl
  omega

/-- The data bytes in the buffer never exceed the input. -/
theorem ingest_size_le (env : Env) (how : LoopExit) (st : LoopState)
    (h : ingest env = some (how, st)) : st.data_size ≤ env.input.length := by
  obtain ⟨⟨hl, hs, _⟩, _⟩ := ingest_spec env _ st h
  rw [← hl, ← hs, List.length_append]
  omega

theorem mem_reallocEvents {e : Event} {l : List (Nat × Bool)} (h : e ∈ reallocEvents l) :
    isMemoryEvent e = true := by
  unfold reallocEvents at h
  obtain ⟨p, _, rfl⟩ := List.mem_map.mp h
  rfl

theorem fatal_trace_memory (n : Nat) (l : List (Nat × Bool)) :
    ∀ e ∈ Event.malloc n true :: (reallocEvents l ++ [Event.free]), isMemoryEvent e = true := by
  intro e he
  rcases List.mem_cons.mp he with rfl | he
  · rfl
  · rcases List.mem_append.mp he with he | he
    · exact mem_reallocEvents he
    · rw [List.mem_singleton.mp he]; rfl

theorem written_of_memory (tr : List Event) (h : ∀ e ∈ tr, isMemoryEvent e = true) :
    written tr = [] := by
  induction tr with
  | nil => rfl
  | cons e rest ih =>
    have he := h e (List.mem_cons_self _ _)
    have hr := ih (fun x hx => h x (List.mem_cons_of_mem _ hx))
    cases e <;> simp_all [written, isMemoryEvent]

/-- The trace of a run that ends in the ingestion stage holds allocator events only. -/
theorem ingest_fatal_trace (env : Env) (how : LoopExit) (st : LoopState)
    (h : ingest env = some (how, st)) (hne : how ≠ LoopExit.done) :
    ∀ e ∈ st.trace, isMemoryEvent e = true := by
  obtain ⟨_, _, ha, hf⟩ := ingest_spec env how st h
  cases how with
  | done => exact absurd rfl hne
  | abort =>
    obtain ⟨_, l, hl⟩ := ha rfl
    rw [hl]; exact fatal_trace_memory _ l
  | reallocFailed =>
    obtain ⟨_, l, hl⟩ := hf rfl
    rw [hl]; exact fatal_trace_memory _ l

/-- C4 (amended): for every input of size S < 16 MiB, every splitting of it into
non-empty reads and an allocator that never fails, the ingestion loop ends
normally with `data_size = S` and `data[0..S)` equal to the input. -/
theorem ingest_below_cap (env : Env) (hsize : env.input.length < MAX_BUFFER_SIZE)
    (hch : ∀ c ∈ env.chunks, 1 ≤ c) (hre : ∀ n, env.reallocOk n = true) :
    ∃ st, ingest env = some (LoopExit.done, st) ∧ st.data_size = env.input.length ∧
      st.data.take st.data_size = env.input := by
  obtain ⟨⟨how, st⟩, h⟩ := ingest_terminates env
  have hle := ingest_size_le env how st h
  obtain ⟨⟨hl, _, _⟩, _, ha, hf⟩ := ingest_spec env how st h
  cases how with
  | done =>
    obtain ⟨hd, hs⟩ := ingest_done_data env st hch h
    refine ⟨st, h, hs, ?_⟩
    rw [← hl, List.take_length, hd]
  | abort =>
    obtain ⟨hmax, _⟩ := ha rfl
    omega
  | reallocFailed =>
    obtain ⟨⟨n, hn⟩, _⟩ := hf rfl
    rw [hre n] at hn
    cases hn

theorem ingest_below_cap_witness :
    chunkedEnv.input.length < MAX_BUFFER_SIZE ∧ (∀ c ∈ chunkedEnv.chunks, 1 ≤ c) ∧
      (∀ n, chunkedEnv.reallocOk n = true) ∧
      ∃ st, ingest chunkedEnv = some (LoopExit.done, st) ∧
        st.data_size = chunkedEnv.input.length ∧
        st.data.take st.data_size = chunkedEnv.input :=
  ⟨by decide, by decide, fun _ => rfl,
    ingest_below_cap chunkedEnv (by decide) (by decide) (fun _ => rfl)⟩

/-- C4 (as stated, refuted): an input of exactly 16777216 bytes, read in
non-empty chunks with an allocator that never fails, makes the ingestion loop
abort (lines 47-51) instead of ending with `data_size = 16777216`. -/
theorem ingest_at_cap_aborts :
    capEnv.input.length = 16777216 ∧ (∀ c ∈ capEnv.chunks, 1 ≤ c) ∧
      (∀ n, capEnv.reallocOk n = true) ∧
      (∃ st, ingest capEnv = some (LoopExit.abort, st)) ∧
      ¬ ∃ st, ingest capEnv = some (LoopExit.done, st) := by
  have hlen : capEnv.input.length = 16777216 := List.length_replicate _ _
  have hch : ∀ c ∈ capEnv.chunks, 1 ≤ c := fun c hc => absurd hc (List.not_mem_nil c)
  have hsize : MAX_BUFFER_SIZE ≤ capEnv.input.length := by rw [hlen]; decide
  refine ⟨hlen, hch, fun _ => rfl, ?_, ?_⟩
  · obtain ⟨⟨how, st⟩, h⟩ := ingest_terminates capEnv
    obtain ⟨_, _, _, hf⟩ := ingest_spec capEnv how st h
    cases how with
    | done => exact absurd h (ingest_not_done_at_cap capEnv hch hsize st)
    | abort => exact ⟨st, h⟩
    | reallocFailed =>
      obtain ⟨⟨n, hn⟩, _⟩ := hf rfl
      cases hn
  · rintro ⟨st, h⟩
    exact ingest_not_done_at_cap capEnv hch hsize st h

/-- Every call of `webp_to_webp` comes to an end. -/
theorem webp_to_webp_terminates (env : Env) (targetSize : Int) :
    ∃ o, webp_to_webp env targetSize = some o := by
  obtain ⟨⟨how, st⟩, h⟩ := ingest_terminates env
  unfold webp_to_webp
  dsimp only
  split_ifs
  · exact ⟨_, rfl⟩
  · exact ⟨_, rfl⟩
  · rw [h]
    cases how <;> exact ⟨_, rfl⟩

/-- C5: for every input of more than 16 MiB, however it is split into non-empty
reads, `webp_to_webp` returns 1, writes nothing to the output and calls neither
the probe nor the decoder nor the encoder. -/
theorem cap_enforced (env : Env) (targetSize : Int)
    (hsize : MAX_BUFFER_SIZE < env.input.length) (hch : ∀ c ∈ env.chunks, 1 ≤ c) :
    ∃ tr, webp_to_webp env targetSize = some (Outcome.returned 1 tr) ∧
      written tr = [] ∧ (∀ c, Event.fwrite c ∉ tr) ∧ Event.WebPGetInfo ∉ tr ∧
      (∀ w h ok, Event.WebPDecode w h ok ∉ tr) ∧
      (∀ w h p, Event.WebPEncodeRGBA w h p ∉ tr) := by
  have key : ∃ tr, webp_to_webp env targetSize = some (Outcome.returned 1 tr) ∧
      ∀ e ∈ tr, isMemoryEvent e = true := by
    obtain ⟨⟨how, st⟩, h⟩ := ingest_terminates env
    unfold webp_to_webp
    dsimp only
    split_ifs
    · exact ⟨[], rfl, fun e he => absurd he (List.not_mem_nil e)⟩
    · refine ⟨_, rfl, fun e he => ?_⟩
      rw [List.mem_singleton.mp he]; rfl
    · rw [h]
      cases how with
      | done => exact absurd h (ingest_not_done_at_cap env hch (Nat.le_of_lt hsize) st)
      | abort =>
        exact ⟨st.trace, rfl, ingest_fatal_trace env _ st h (by decide)⟩
      | reallocFailed =>
        exact ⟨st.trace, rfl, ingest_fatal_trace env _ st h (by decide)⟩
  obtain ⟨tr, htr, hmem⟩ := key
  refine ⟨tr, htr, written_of_memory tr hmem, ?_, ?_, ?_, ?_⟩
  · intro c hc
    have := hmem _ hc
    simp [isMemoryEvent] at this
  · intro hc
    have := hmem _ hc
    simp [isMemoryEvent] at this
  · intro w h ok hc
    have := hmem _ hc
    simp [isMemoryEvent] at this
  · intro w h p hc
    have := hmem _ hc
    simp [isMemoryEvent] at this

theorem cap_enforced_witness :
    MAX_BUFFER_SIZE < overCapEnv.input.length ∧ (∀ c ∈ overCapEnv.chunks, 1 ≤ c) ∧
      ∃ tr, webp_to_webp overCapEnv 500 = some (Outcome.returned 1 tr) ∧
        written tr = [] ∧ (∀ c, Event.fwrite c ∉ tr) ∧ Event.WebPGetInfo ∉ tr ∧
        (∀ w h ok, Event.WebPDecode w h ok ∉ tr) ∧
        (∀ w h p, Event.WebPEncodeRGBA w h p ∉ tr) :=
  have hlen : overCapEnv.input.length = 16777217 := List.length_replicate _ _
  have hsize : MAX_BUFFER_SIZE < overCapEnv.input.length := by rw [hlen]; decide
  ⟨hsize, fun c hc => absurd hc (List.not_mem_nil c),
    cap_enforced overCapEnv 500 hsize (fun c hc => absurd hc (List.not_mem_nil c))⟩

/-! The loop invariant -/

theorem loopStateAt_inv (env : Env) :
    ∀ (k : Nat) (st : LoopState), loopStateAt env k = some st →
      Buffered env.input st ∧ st.data_size < st.buffer_size := by
  intro k
  induction k with
  | zero =>
    intro st h
    injection h with h
    subst h
    exact ⟨initState_buffered env, initState_room env⟩
  | succ n ih =>
    intro st h
    unfold loopStateAt at h
    cases hprev : loopStateAt env n with
    | none => rw [hprev] at h; cases h
    | some s =>
      rw [hprev] at h
      dsimp only at h
      obtain ⟨hb, hr⟩ := ih s hprev
      cases hstep : loopStep env.reallocOk s with
      | next s' =>
        rw [hstep] at h
        injection h with h
        subst h
        obtain ⟨hb', hr', _, _⟩ := loopStep_next hstep hb hr
        exact ⟨hb', hr'⟩
      | leave how s' => rw [hstep] at h; cases h

/-- The run of the loop ends at one of the loop heads listed by `loopStateAt`. -/
theorem ingestLoop_follows (env : Env) :
    ∀ (fuel k : Nat) (s st' : LoopState) (how : LoopExit),
      loopStateAt env k = some s → ingestLoop env.reallocOk fuel s = some (how, st') →
      ∃ j st, loopStateAt env j = some st ∧ loopStep env.reallocOk st = Step.leave how st' := by
  intro fuel
  induction fuel with
  | zero => intro k s st' how _ h; simp [ingestLoop] at h
  | succ n ih =>
    intro k s st' how hk h
    unfold ingestLoop at h
    cases hstep : loopStep env.reallocOk s with
    | next s1 =>
      rw [hstep] at h
      refine ih (k + 1) s1 st' how ?_ h
      show (match loopStateAt env k with
        | none => none
        | some st =>
          match loopStep env.reallocOk st with
          | Step.next st' => some st'
          | Step.leave _ _ => none) = some s1
      rw [hk]
      dsimp only
      rw [hstep]
    | leave how1 s1 =>
      rw [hstep] at h
      injection h with h
      injection h with h1 h2
      subst h1 h2
      exact ⟨k, s, hk, hstep⟩

/-- C9: at every evaluation of the loop condition, for every sequence of reads,
`data_size ≤ buffer_size ≤ MAX_BUFFER_SIZE` and `data_size < buffer_size`;
`buffer_size` starts at 65536 and each change of it replaces it with
`min (2 * buffer_size) 16777216`. -/
theorem loop_invariant (env : Env) (k : Nat) (st : LoopState)
    (h : loopStateAt env k = some st) :
    st.data_size ≤ st.buffer_size ∧ st.buffer_size ≤ MAX_BUFFER_SIZE ∧
      MAX_BUFFER_SIZE = 16777216 ∧ st.data_size < st.buffer_size ∧
      (k = 0 → st.buffer_size = 65536 ∧ st.data_size = 0) ∧
      ∀ st', loopStateAt env (k + 1) = some st' →
        st'.buffer_size = st.buffer_size ∨
          st'.buffer_size = min (2 * st.buffer_size) 16777216 := by
  obtain ⟨hb, hr⟩ := loopStateAt_inv env k st h
  refine ⟨Nat.le_of_lt hr, hb.2.2, rfl, hr, ?_, ?_⟩
  · intro hk
    subst hk
    injection h with h
    subst h
    exact ⟨rfl, rfl⟩
  · intro st' h'
    unfold loopStateAt at h'
    rw [h] at h'
    dsimp only at h'
    cases hstep : loopStep env.reallocOk st with
    | next s' =>
      rw [hstep] at h'
      injection h' with h'
      subst h'
      obtain ⟨_, _, hg, _⟩ := loopStep_next hstep hb hr
      exact hg
    | leave how s' => rw [hstep] at h'; cases h'

theorem loop_invariant_witness :
    ∃ st, loopStateAt chunkedEnv 1 = some st ∧ st.data_size = 2 ∧
      (st.data_size ≤ st.buffer_size ∧ st.buffer_size ≤ MAX_BUFFER_SIZE ∧
        MAX_BUFFER_SIZE = 16777216 ∧ st.data_size < st.buffer_size ∧
        (1 = 0 → st.buffer_size = 65536 ∧ st.data_size = 0) ∧
        ∀ st', loopStateAt chunkedEnv (1 + 1) = some st' →
          st'.buffer_size = st.buffer_size ∨
            st'.buffer_size = min (2 * st.buffer_size) 16777216) :=
  ⟨_, rfl, rfl, loop_invariant chunkedEnv 1 _ rfl⟩

/-! Passthrough and the scale factor -/

theorem passthroughExit_eq (limit : Nat) (tr : List Event) (data : List Byte) (ds : Nat) :
    passthroughExit limit tr data ds =
      if ds = 0 then Outcome.returned 1 (tr ++ [Event.free])
      else if ds ≤ limit then
        Outcome.returned 0 (tr ++ [Event.fwrite (data.take ds), Event.fflush, Event.free])
      else Outcome.returned 1 (tr ++ [Event.fwrite ((data.take ds).take limit), Event.free]) := by
  unfold passthroughExit passthrough_webp fwrite
  by_cases h0 : ds = 0
  · simp [h0]
  · by_cases h1 : ds ≤ limit
    · simp [h0, h1, List.take_take, Nat.min_eq_left h1]
    · simp [h0, h1]

theorem written_append (a b : List Event) : written (a ++ b) = written a ++ written b := by
  induction a with
  | nil => rfl
  | cons e rest ih => cases e <;> simp [written, ih]

/-- For positive width, height and target the scale factor is `height / targetSize`
when the height exceeds the target and 1 otherwise, it is at least 1, and no
division is undefined. -/
theorem scaleConfig_pos (W H T : Int) (hH : 0 < H) (hT : 0 < T) :
    1 ≤ (if H > T then H.tdiv T else 1) ∧ (if H > T then H.tdiv T else 1) ≤ H ∧
      scaleConfig W H T =
        some (if H > T then H.tdiv T else 1, W.tdiv (if H > T then H.tdiv T else 1),
          H.tdiv (if H > T then H.tdiv T else 1)) := by
  have hsf : 1 ≤ (if H > T then H.tdiv T else 1) ∧ (if H > T then H.tdiv T else 1) ≤ H := by
    split_ifs with h
    · rw [Int.tdiv_eq_ediv (le_of_lt hH) (le_of_lt hT)]
      exact ⟨(Int.le_ediv_iff_mul_le hT).mpr (by omega), Int.ediv_le_self _ (le_of_lt hH)⟩
    · exact ⟨le_refl _, by omega⟩
  refine ⟨hsf.1, hsf.2, ?_⟩
  have hT0 : T ≠ 0 := by omega
  have hne : (if H > T then H.tdiv T else 1) ≠ 0 := by omega
  have hm1 : ¬ (H = INT_MIN ∧ T = -1) := by omega
  unfold scaleConfig
  have h1 : (if H > T then cDiv H T else some 1) = some (if H > T then H.tdiv T else 1) := by
    split_ifs with h
    · simp [cDiv, hT0, hm1]
    · rfl
  rw [h1]
  have hneg : (if H > T then H.tdiv T else 1) ≠ -1 := by omega
  simp [cDiv, hne, hneg]

/-- Once the probe and the configuration have succeeded and the scale factor is
defined, the run returns, the decoder is called with the scaled dimensions,
and every decoder or encoder call of the run carries exactly these. -/
theorem transcode_scaled (env : Env) (T status : Int) (st : LoopState) (W H sf sw sh : Int)
    (hprobe : env.WebPGetInfo (st.data.take st.data_size) = some (W, H))
    (hinit : env.WebPInitDecoderConfig = true)
    (hsc : scaleConfig W H T = some (sf, sw, sh)) :
    ∃ s tail, transcode env T status st = Outcome.returned s (st.trace ++ tail) ∧
      (∃ ok, Event.WebPDecode sw sh ok ∈ tail) ∧
      (∀ a b ok, Event.WebPDecode a b ok ∈ tail → a = sw ∧ b = sh) ∧
      (∀ a b p, Event.WebPEncodeRGBA a b p ∈ tail → a = sw ∧ b = sh) ∧
      (∀ dec, env.WebPDecode (st.data.take st.data_size) sw sh = some dec →
        ∃ p, Event.WebPEncodeRGBA sw sh p ∈ tail) := by
  unfold transcode
  simp only [hprobe, hinit, hsc, passthroughExit_eq, Bool.not_true, Bool.false_eq_true, if_false]
  cases hdec : env.WebPDecode (st.data.take st.data_size) sw sh with
  | none =>
    dsimp only
    split_ifs
    all_goals
      refine ⟨_, _, by simp only [List.append_assoc]; rfl, ?_⟩
      simp
  | some dec =>
    dsimp only
    cases henc : env.WebPEncodeRGBA dec.rgba sw sh dec.stride WEBP_QUALITY with
    | none =>
      dsimp only
      split_ifs
      all_goals
        refine ⟨_, _, by simp only [List.append_assoc]; rfl, ?_⟩
        simp
    | some out =>
      dsimp only
      refine ⟨_, _, by simp only [List.append_assoc]; rfl, ?_⟩
      simp

theorem ingest_done_trace_memory (env : Env) (st : LoopState)
    (h : ingest env = some (LoopExit.done, st)) : ∀ e ∈ st.trace, isMemoryEvent e = true := by
  obtain ⟨_, hd, _, _⟩ := ingest_spec env _ st h
  obtain ⟨_, ⟨l, hl⟩, _⟩ := hd rfl
  intro e he
  rw [hl] at he
  rcases List.mem_cons.mp he with rfl | he
  · rfl
  · exact mem_reallocEvents he

theorem normalizeTarget_pos (T : Int) (hT : 0 < T) : normalizeTarget T = T := by
  unfold normalizeTarget
  rw [if_neg (by omega)]

/-- After a successful setup, ingestion, probe and configuration, with a defined
scale factor, `webp_to_webp` returns and hands exactly the scaled dimensions to
the decoder and to the encoder. -/
theorem webp_to_webp_scaled (env : Env) (T : Int) (st : LoopState) (W H sf sw sh : Int)
    (hopen : env.inputOpen = true) (hout : env.outputOpen = true) (hm : env.mallocOk = true)
    (hin : ingest env = some (LoopExit.done, st))
    (hprobe : env.WebPGetInfo (st.data.take st.data_size) = some (W, H))
    (hinit : env.WebPInitDecoderConfig = true)
    (hsc : scaleConfig W H (normalizeTarget T) = some (sf, sw, sh)) :
    ∃ status tr, webp_to_webp env T = some (Outcome.returned status tr) ∧
      (∃ ok, Event.WebPDecode sw sh ok ∈ tr) ∧
      (∀ a b ok, Event.WebPDecode a b ok ∈ tr → a = sw ∧ b = sh) ∧
      (∀ a b p, Event.WebPEncodeRGBA a b p ∈ tr → a = sw ∧ b = sh) ∧
      (∀ dec, env.WebPDecode (st.data.take st.data_size) sw sh = some dec →
        ∃ p, Event.WebPEncodeRGBA sw sh p ∈ tr) := by
  obtain ⟨s, tail, htr, ⟨ok, h1⟩, h2, h3, h4⟩ :=
    transcode_scaled env (normalizeTarget T) 0 st W H sf sw sh hprobe hinit hsc
  have hmem := ingest_done_trace_memory env st hin
  refine ⟨s, st.trace ++ tail, ?_, ⟨ok, List.mem_append_right _ h1⟩, ?_, ?_, ?_⟩
  · unfold webp_to_webp
    simp only [hopen, hout, hm, hin, htr, Bool.not_true, Bool.or_self, Bool.false_eq_true,
      if_false]
  · intro a b ok' hab
    rcases List.mem_append.mp hab with hab | hab
    · have := hmem _ hab
      simp [isMemoryEvent] at this
    · exact h2 a b ok' hab
  · intro a b p hab
    rcases List.mem_append.mp hab with hab | hab
    · have := hmem _ hab
      simp [isMemoryEvent] at this
    · exact h3 a b p hab
  · intro dec hdec
    obtain ⟨p, hp⟩ := h4 dec hdec
    exact ⟨p, List.mem_append_right _ hp⟩

/-- C6: for a probed image of width W and height H > 0 and a targetSize T > 0,
the decoder is configured with `scaled_width = W / (H / T)` and
`scaled_height = H / (H / T)` (truncating division) when H > T and with W and H
when H ≤ T, and the same dimensions are passed to the encoder. -/
theorem scale_factor_correct (env : Env) (T : Int) (st : LoopState) (W H : Int)
    (hopen : env.inputOpen = true) (hout : env.outputOpen = true) (hm : env.mallocOk = true)
    (hin : ingest env = some (LoopExit.done, st))
    (hprobe : env.WebPGetInfo (st.data.take st.data_size) = some (W, H))
    (hinit : env.WebPInitDecoderConfig = true) (hH : 0 < H) (hT : 0 < T) :
    ∃ sw sh status tr,
      (H > T → sw = W.tdiv (H.tdiv T) ∧ sh = H.tdiv (H.tdiv T)) ∧
      (H ≤ T → sw = W ∧ sh = H) ∧
      webp_to_webp env T = some (Outcome.returned status tr) ∧
      (∃ ok, Event.WebPDecode sw sh ok ∈ tr) ∧
      (∀ a b ok, Event.WebPDecode a b ok ∈ tr → a = sw ∧ b = sh) ∧
      (∀ a b p, Event.WebPEncodeRGBA a b p ∈ tr → a = sw ∧ b = sh) ∧
      (∀ dec, env.WebPDecode (st.data.take st.data_size) sw sh = some dec →
        ∃ p, Event.WebPEncodeRGBA sw sh p ∈ tr) := by
  obtain ⟨_, _, hsc⟩ := scaleConfig_pos W H T hH hT
  rw [← normalizeTarget_pos T hT] at hsc
  obtain ⟨status, tr, h⟩ := webp_to_webp_scaled env T st W H _ _ _ hopen hout hm hin hprobe hinit hsc
  rw [normalizeTarget_pos T hT] at h
  refine ⟨_, _, status, tr, ?_, ?_, h⟩
  · intro hgt
    rw [if_pos hgt]
    exact ⟨rfl, rfl⟩
  · intro hle
    rw [if_neg (by omega)]
    simp

theorem scale_factor_correct_witness :
    ingest imageEnv =
        some (LoopExit.done, ⟨[1, 2, 3], 3, 65536, ⟨[], []⟩, [Event.malloc 65536 true]⟩) ∧
      scaleConfig 500 1000 500 = some (2, 250, 500) ∧
      webp_to_webp imageEnv 500 = some (Outcome.returned 0
        [Event.malloc 65536 true, Event.WebPGetInfo, Event.WebPInitDecoderConfig,
          Event.WebPDecode 250 500 true, Event.WebPEncodeRGBA 250 500 true,
          Event.fwrite [7, 7, 7], Event.fflush, Event.WebPFree, Event.WebPFreeDecBuffer,
          Event.free]) ∧
      ∃ sw sh status tr,
        ((1000 : Int) > 500 → sw = Int.tdiv 500 (Int.tdiv 1000 500) ∧
          sh = Int.tdiv 1000 (Int.tdiv 1000 500)) ∧
        ((1000 : Int) ≤ 500 → sw = 500 ∧ sh = 1000) ∧
        webp_to_webp imageEnv 500 = some (Outcome.returned status tr) ∧
        (∃ ok, Event.WebPDecode sw sh ok ∈ tr) ∧
        (∀ a b ok, Event.WebPDecode a b ok ∈ tr → a = sw ∧ b = sh) ∧
        (∀ a b p, Event.WebPEncodeRGBA a b p ∈ tr → a = sw ∧ b = sh) ∧
        (∀ dec, imageEnv.WebPDecode (List.take 3 [1, 2, 3]) sw sh = some dec →
          ∃ p, Event.WebPEncodeRGBA sw sh p ∈ tr) :=
  ⟨rfl, by decide, rfl,
    scale_factor_correct imageEnv 500
      ⟨[1, 2, 3], 3, 65536, ⟨[], []⟩, [Event.malloc 65536 true]⟩ 500 1000
      rfl rfl rfl rfl rfl rfl (by decide) (by decide)⟩

/-- C7 (failing input): with `targetSize = 0` and a probed height of 1000 the
test `height > targetSize` holds and line 86 divides by zero; no scale factor
of 1 is computed and the decoder is never configured. -/
theorem target_zero_divides_by_zero :
    normalizeTarget 0 = 0 ∧ scaleConfig 500 1000 0 = none ∧
      webp_to_webp imageEnv 0 = some (Outcome.divisionByZero
        [Event.malloc 65536 true, Event.WebPGetInfo, Event.WebPInitDecoderConfig]) :=
  ⟨by decide, by decide, rfl⟩

/-- C3 (failing input): on the full-success path the output stream consumes one
byte of the three encoded ones, `fwrite` reports 0 items, and `webp_to_webp`
still returns 0. -/
theorem short_write_returns_zero :
    fwrite shortWriteEnv.writeLimit [7, 7, 7] 3 = (0, [7]) ∧
      webp_to_webp shortWriteEnv 500 = some (Outcome.returned 0
        [Event.malloc 65536 true, Event.WebPGetInfo, Event.WebPInitDecoderConfig,
          Event.WebPDecode 250 500 true, Event.WebPEncodeRGBA 250 500 true,
          Event.fwrite [7], Event.fflush, Event.WebPFree, Event.WebPFreeDecBuffer,
          Event.free]) :=
  ⟨by decide, rfl⟩

/-- C8 (as stated, refuted): a 1 x 1000 image with `targetSize = 10` has scale
factor 100 and is handed to the decoder and the encoder with `scaled_width = 0`. -/
theorem scaled_width_zero :
    scaleConfig 1 1000 10 = some (100, 0, 10) ∧
      webp_to_webp narrowEnv 10 = some (Outcome.returned 0
        [Event.malloc 65536 true, Event.WebPGetInfo, Event.WebPInitDecoderConfig,
          Event.WebPDecode 0 10 true, Event.WebPEncodeRGBA 0 10 true,
          Event.fwrite [7, 7, 7], Event.fflush, Event.WebPFree, Event.WebPFreeDecBuffer,
          Event.free]) :=
  ⟨by decide, rfl⟩

/-- C8 (amended): for a probed image of width W ≥ 1 and height H ≥ 1 and a
targetSize T > 0, the scale factor is at least 1, the `scaled_height` handed to
the decoder and the encoder is at least 1, and the `scaled_width` handed to
them is at least 1 exactly when the scale factor does not exceed W (it is 0
otherwise). -/
theorem scaled_dimensions_bounds (env : Env) (T : Int) (st : LoopState) (W H : Int)
    (hopen : env.inputOpen = true) (hout : env.outputOpen = true) (hm : env.mallocOk = true)
    (hin : ingest env = some (LoopExit.done, st))
    (hprobe : env.WebPGetInfo (st.data.take st.data_size) = some (W, H))
    (hinit : env.WebPInitDecoderConfig = true) (hW : 1 ≤ W) (hH : 1 ≤ H) (hT : 0 < T) :
    ∃ sf sw sh status tr,
      scaleConfig W H T = some (sf, sw, sh) ∧ 1 ≤ sf ∧ 1 ≤ sh ∧
      (1 ≤ sw ↔ sf ≤ W) ∧ (W < sf → sw = 0) ∧
      webp_to_webp env T = some (Outcome.returned status tr) ∧
      (∃ ok, Event.WebPDecode sw sh ok ∈ tr) ∧
      (∀ a b ok, Event.WebPDecode a b ok ∈ tr → a = sw ∧ b = sh) ∧
      (∀ a b p, Event.WebPEncodeRGBA a b p ∈ tr → a = sw ∧ b = sh) := by
  obtain ⟨hsf1, hsfH, hsc⟩ := scaleConfig_pos W H T (by omega) hT
  have hsc' := hsc
  rw [← normalizeTarget_pos T hT] at hsc'
  obtain ⟨status, tr, h, hd, hda, hea, _⟩ :=
    webp_to_webp_scaled env T st W H _ _ _ hopen hout hm hin hprobe hinit hsc'
  rw [normalizeTarget_pos T hT] at hd hda hea
  generalize (if H > T then H.tdiv T else 1) = sf at *
  have hsfpos : 0 < sf := by omega
  have hsw : W.tdiv sf = W / sf := Int.tdiv_eq_ediv (by omega) (by omega)
  have hsh : H.tdiv sf = H / sf := Int.tdiv_eq_ediv (by omega) (by omega)
  have hiff : 1 ≤ W / sf ↔ sf ≤ W := by
    rw [Int.le_ediv_iff_mul_le hsfpos, one_mul]
  refine ⟨sf, W.tdiv sf, H.tdiv sf, status, tr, hsc, hsf1, ?_, ?_, ?_, h, hd, hda, hea⟩
  · rw [hsh, Int.le_ediv_iff_mul_le hsfpos, one_mul]
    exact hsfH
  · rw [hsw]
    exact hiff
  · intro hlt
    rw [hsw]
    have h0 : 0 ≤ W / sf := Int.ediv_nonneg (by omega) (by omega)
    have h1 : ¬ 1 ≤ W / sf := fun hc => by have := hiff.mp hc; omega
    omega

theorem scaled_dimensions_bounds_witness :
    ingest narrowEnv =
        some (LoopExit.done, ⟨[1, 2, 3], 3, 65536, ⟨[], []⟩, [Event.malloc 65536 true]⟩) ∧
      ∃ sf sw sh status tr,
        scaleConfig 1 1000 10 = some (sf, sw, sh) ∧ 1 ≤ sf ∧ 1 ≤ sh ∧
        (1 ≤ sw ↔ sf ≤ 1) ∧ (1 < sf → sw = 0) ∧
        webp_to_webp narrowEnv 10 = some (Outcome.returned status tr) ∧
        (∃ ok, Event.WebPDecode sw sh ok ∈ tr) ∧
        (∀ a b ok, Event.WebPDecode a b ok ∈ tr → a = sw ∧ b = sh) ∧
        (∀ a b p, Event.WebPEncodeRGBA a b p ∈ tr → a = sw ∧ b = sh) :=
  ⟨rfl,
    scaled_dimensions_bounds narrowEnv 10
      ⟨[1, 2, 3], 3, 65536, ⟨[], []⟩, [Event.malloc 65536 true]⟩ 1 1000
      rfl rfl rfl rfl rfl rfl (by decide) (by decide) (by decide)⟩

/-- C2 (as stated, refuted): on an empty input that the probe rejects,
`passthrough_webp` writes nothing but returns 1, and `webp_to_webp` returns 1. -/
theorem empty_input_reported_as_failure :
    ingest emptyEnv =
        some (LoopExit.done, ⟨[], 0, 65536, ⟨[], []⟩, [Event.malloc 65536 true]⟩) ∧
      emptyEnv.WebPGetInfo [] = none ∧
      passthrough_webp emptyEnv.writeLimit (some []) 0 = (1, []) ∧
      webp_to_webp emptyEnv 500 = some (Outcome.returned 1
        [Event.malloc 65536 true, Event.WebPGetInfo, Event.free]) :=
  ⟨rfl, rfl, rfl, rfl⟩

/-- C2 (amended): when the first read of the input stream returns no byte (so
`data_size = 0`) and the probe rejects the empty buffer, `passthrough_webp`
performs no write and returns 1, and `webp_to_webp` returns 1 having written
nothing. -/
theorem empty_input_fails (env : Env) (T : Int)
    (hopen : env.inputOpen = true) (hout : env.outputOpen = true) (hm : env.mallocOk = true)
    (hempty : (fread ⟨env.input, env.chunks⟩ INITIAL_BUFFER_SIZE).1 = [])
    (hprobe : env.WebPGetInfo [] = none) :
    (∀ data, passthrough_webp env.writeLimit data 0 = (1, [])) ∧
      webp_to_webp env T = some (Outcome.returned 1
        [Event.malloc INITIAL_BUFFER_SIZE true, Event.WebPGetInfo, Event.free]) := by
  constructor
  · intro data
    cases data <;> simp [passthrough_webp]
  · have hin : ingest env = some (LoopExit.done,
        ⟨[], 0, INITIAL_BUFFER_SIZE, (fread ⟨env.input, env.chunks⟩ INITIAL_BUFFER_SIZE).2,
          [Event.malloc INITIAL_BUFFER_SIZE true]⟩) := by
      unfold ingest ingestLoop loopStep initState
      simp only [Nat.sub_zero, hempty, List.length_nil, gt_iff_lt, lt_self_iff_false, if_false]
    unfold webp_to_webp
    simp only [hopen, hout, hm, hin, Bool.not_true, Bool.or_self, Bool.false_eq_true, if_false]
    unfold transcode
    simp [hprobe, passthroughExit_eq]

theorem empty_input_fails_witness :
    (fread ⟨emptyEnv.input, emptyEnv.chunks⟩ INITIAL_BUFFER_SIZE).1 = [] ∧
      emptyEnv.WebPGetInfo [] = none ∧
      (∀ data, passthrough_webp emptyEnv.writeLimit data 0 = (1, [])) ∧
      webp_to_webp emptyEnv 500 = some (Outcome.returned 1
        [Event.malloc INITIAL_BUFFER_SIZE true, Event.WebPGetInfo, Event.free]) :=
  ⟨rfl, rfl, empty_input_fails emptyEnv 500 rfl rfl rfl rfl rfl⟩

/-- C1: after an ingestion that ended normally with a non-empty buffer, for each
of the four recoverable failures, if the output write succeeds then
`webp_to_webp` returns 0 and the output stream has received exactly the
ingested bytes `data[0..data_size)` (the whole input when no read is empty
before the end). -/
theorem passthrough_on_failure (env : Env) (T : Int) (st : LoopState)
    (hopen : env.inputOpen = true) (hout : env.outputOpen = true) (hm : env.mallocOk = true)
    (hin : ingest env = some (LoopExit.done, st)) (hne : st.data_size ≠ 0)
    (hfail : RecoverableFailure env (normalizeTarget T) (st.data.take st.data_size))
    (hw : (fwrite env.writeLimit st.data st.data_size).1 = 1) :
    ∃ tr, webp_to_webp env T = some (Outcome.returned 0 tr) ∧
      written tr = st.data.take st.data_size ∧
      ((∀ c ∈ env.chunks, 1 ≤ c) → written tr = env.input) := by
  have hlim : st.data_size ≤ env.writeLimit := by
    unfold fwrite at hw
    by_contra hc
    simp [hc] at hw
  have key : ∃ tail, transcode env (normalizeTarget T) 0 st =
      Outcome.returned 0 (st.trace ++ tail) ∧ written tail = st.data.take st.data_size := by
    unfold transcode
    rcases hfail with h1 | ⟨wh, h1, h2⟩ | ⟨w, h, sf, sw, sh, h1, h2, h3, h4⟩ |
      ⟨w, h, sf, sw, sh, dec, h1, h2, h3, h4, h5⟩
    · simp only [h1, passthroughExit_eq, if_neg hne, if_pos hlim]
      exact ⟨_, by simp only [List.append_assoc]; rfl, by simp [written]⟩
    · simp only [h1, h2, passthroughExit_eq, if_neg hne, if_pos hlim, Bool.not_false, if_true]
      exact ⟨_, by simp only [List.append_assoc]; rfl, by simp [written]⟩
    · simp only [h1, h2, h3, h4, passthroughExit_eq, if_neg hne, if_pos hlim, Bool.not_true,
        Bool.false_eq_true, if_false]
      exact ⟨_, by simp only [List.append_assoc]; rfl, by simp [written]⟩
    · simp only [h1, h2, h3, h4, h5, passthroughExit_eq, if_neg hne, if_pos hlim, Bool.not_true,
        Bool.false_eq_true, if_false]
      exact ⟨_, by simp only [List.append_assoc]; rfl, by simp [written]⟩
  obtain ⟨tail, htr, hwr⟩ := key
  have hpre : written st.trace = [] :=
    written_of_memory _ (ingest_done_trace_memory env st hin)
  have hall : written (st.trace ++ tail) = st.data.take st.data_size := by
    rw [written_append, hpre, hwr, List.nil_append]
  refine ⟨st.trace ++ tail, ?_, hall, ?_⟩
  · unfold webp_to_webp
    simp only [hopen, hout, hm, hin, htr, Bool.not_true, Bool.or_self, Bool.false_eq_true,
      if_false]
  · intro hch
    obtain ⟨hd, hs⟩ := ingest_done_data env st hch hin
    rw [hall, hs, ← hd, List.take_length]

theorem passthrough_on_failure_witness :
    (∃ tr, webp_to_webp textEnv 500 = some (Outcome.returned 0 tr) ∧
      written tr = List.take 3 [104, 105, 33] ∧
      ((∀ c ∈ textEnv.chunks, 1 ≤ c) → written tr = textEnv.input)) ∧
    (∃ tr, webp_to_webp configFailEnv 500 = some (Outcome.returned 0 tr) ∧
      written tr = List.take 3 [1, 2, 3] ∧
      ((∀ c ∈ configFailEnv.chunks, 1 ≤ c) → written tr = configFailEnv.input)) ∧
    (∃ tr, webp_to_webp decodeFailEnv 500 = some (Outcome.returned 0 tr) ∧
      written tr = List.take 3 [1, 2, 3] ∧
      ((∀ c ∈ decodeFailEnv.chunks, 1 ≤ c) → written tr = decodeFailEnv.input)) ∧
    (∃ tr, webp_to_webp encodeFailEnv 500 = some (Outcome.returned 0 tr) ∧
      written tr = List.take 3 [1, 2, 3] ∧
      ((∀ c ∈ encodeFailEnv.chunks, 1 ≤ c) → written tr = encodeFailEnv.input)) :=
  ⟨passthrough_on_failure textEnv 500
      ⟨[104, 105, 33], 3, 65536, ⟨[], []⟩, [Event.malloc 65536 true]⟩
      rfl rfl rfl rfl (by decide) (Or.inl rfl) (by decide),
    passthrough_on_failure configFailEnv 500
      ⟨[1, 2, 3], 3, 65536, ⟨[], []⟩, [Event.malloc 65536 true]⟩
      rfl rfl rfl rfl (by decide) (Or.inr (Or.inl ⟨(500, 1000), rfl, rfl⟩)) (by decide),
    passthrough_on_failure decodeFailEnv 500
      ⟨[1, 2, 3], 3, 65536, ⟨[], []⟩, [Event.malloc 65536 true]⟩
      rfl rfl rfl rfl (by decide)
      (Or.inr (Or.inr (Or.inl ⟨500, 1000, 2, 250, 500, rfl, rfl, by decide, rfl⟩)))
      (by decide),
    passthrough_on_failure encodeFailEnv 500
      ⟨[1, 2, 3], 3, 65536, ⟨[], []⟩, [Event.malloc 65536 true]⟩
      rfl rfl rfl rfl (by decide)
      (Or.inr (Or.inr (Or.inr ⟨500, 1000, 2, 250, 500, ⟨[9, 9], 4⟩, rfl, rfl, by decide,
        rfl, rfl⟩)))
      (by decide)⟩

/-! Release of the owned buffers -/

theorem reallocEvents_count (l : List (Nat × Bool)) (e : Event)
    (he : ∀ n b, e ≠ Event.realloc n b) : (reallocEvents l).count e = 0 := by
  rw [List.count_eq_zero]
  intro hmem
  unfold reallocEvents at hmem
  obtain ⟨p, _, hp⟩ := List.mem_map.mp hmem
  exact he p.1 p.2 hp.symm

theorem reallocEvents_any (l : List (Nat × Bool)) (f : Event → Bool)
    (hf : ∀ n b, f (Event.realloc n b) = false) : (reallocEvents l).any f = false := by
  induction l with
  | nil => rfl
  | cons p rest ih =>
    unfold reallocEvents at ih ⊢
    simp only [List.map_cons, List.any_cons, hf, ih, Bool.or_self]

theorem releasedOnlyAfterDecode_realloc (l : List (Nat × Bool)) (tail : List Event) :
    releasedOnlyAfterDecode (reallocEvents l ++ tail) = releasedOnlyAfterDecode tail := by
  induction l with
  | nil => rfl
  | cons p rest ih => exact ih

/-- The release discipline of a whole trace follows from that of its tail. -/
theorem owned_of_tail (n : Nat) (l : List (Nat × Bool)) (tail : List Event)
    (h : OwnedTail tail) :
    (Event.malloc n true :: reallocEvents l ++ tail).count Event.free =
        (if (Event.malloc n true :: reallocEvents l ++ tail).any isAllocation then 1 else 0) ∧
      (Event.malloc n true :: reallocEvents l ++ tail).count Event.WebPFreeDecBuffer =
        (if (Event.malloc n true :: reallocEvents l ++ tail).any isDecodeCall then 1 else 0) ∧
      releasedOnlyAfterDecode (Event.malloc n true :: reallocEvents l ++ tail) = true ∧
      (Event.malloc n true :: reallocEvents l ++ tail).count Event.WebPFree =
        (if (Event.malloc n true :: reallocEvents l ++ tail).any isEncoderOutput
          then 1 else 0) := by
  obtain ⟨h1, _, h3, h4, h5⟩ := h
  have c1 := reallocEvents_count l Event.free (fun _ _ => by simp)
  have c2 := reallocEvents_count l Event.WebPFreeDecBuffer (fun _ _ => by simp)
  have c3 := reallocEvents_count l Event.WebPFree (fun _ _ => by simp)
  have a2 := reallocEvents_any l isDecodeCall (fun _ _ => rfl)
  have a3 := reallocEvents_any l isEncoderOutput (fun _ _ => rfl)
  refine ⟨?_, ?_, ?_, ?_⟩
  · simp [List.count_cons, List.count_append, c1, h1, isAllocation]
  · simp only [List.cons_append, List.count_cons, List.count_append, c2, h3, List.any_cons,
      List.any_append, a2, isDecodeCall]
    simp
  · show releasedOnlyAfterDecode (reallocEvents l ++ tail) = true
    rw [releasedOnlyAfterDecode_realloc]
    exact h4
  · simp only [List.cons_append, List.count_cons, List.count_append, c3, h5, List.any_cons,
      List.any_append, a3, isEncoderOutput]
    simp

/-- Every returning exit of the transcoding stage extends the trace by a tail
that obeys the release discipline. -/
theorem transcode_owned (env : Env) (T status s : Int) (st : LoopState) (tr : List Event)
    (h : transcode env T status st = Outcome.returned s tr) :
    ∃ tail, tr = st.trace ++ tail ∧ OwnedTail tail := by
  unfold transcode at h
  simp only [passthroughExit_eq] at h
  cases hprobe : env.WebPGetInfo (st.data.take st.data_size) with
  | none =>
    rw [hprobe] at h
    dsimp only at h
    split_ifs at h
    all_goals
      injection h with _ h
      subst h
      refine ⟨_, by simp only [List.append_assoc]; rfl, ?_⟩
      simp [OwnedTail, isAllocation, isDecodeCall, isEncoderOutput, releasedOnlyAfterDecode]
  | some wh =>
    obtain ⟨W, H⟩ := wh
    rw [hprobe] at h
    dsimp only at h
    cases hinit : env.WebPInitDecoderConfig with
    | false =>
      simp only [hinit, Bool.not_false, if_true] at h
      split_ifs at h
      all_goals
        injection h with _ h
        subst h
        refine ⟨_, by simp only [List.append_assoc]; rfl, ?_⟩
        simp [OwnedTail, isAllocation, isDecodeCall, isEncoderOutput, releasedOnlyAfterDecode]
    | true =>
      simp only [hinit, Bool.not_true, Bool.false_eq_true, if_false] at h
      cases hsc : scaleConfig W H T with
      | none => rw [hsc] at h; cases h
      | some cfg =>
        obtain ⟨sf, sw, sh⟩ := cfg
        rw [hsc] at h
        dsimp only at h
        cases hdec : env.WebPDecode (st.data.take st.data_size) sw sh with
        | none =>
          rw [hdec] at h
          dsimp only at h
          split_ifs at h
          all_goals
            injection h with _ h
            subst h
            refine ⟨_, by simp only [List.append_assoc]; rfl, ?_⟩
            simp [OwnedTail, isAllocation, isDecodeCall, isEncoderOutput,
              releasedOnlyAfterDecode]
        | some dec =>
          rw [hdec] at h
          dsimp only at h
          cases henc : env.WebPEncodeRGBA dec.rgba sw sh dec.stride WEBP_QUALITY with
          | none =>
            rw [henc] at h
            dsimp only at h
            split_ifs at h
            all_goals
              injection h with _ h
              subst h
              refine ⟨_, by simp only [List.append_assoc]; rfl, ?_⟩
              simp [OwnedTail, isAllocation, isDecodeCall, isEncoderOutput,
                releasedOnlyAfterDecode]
          | some out =>
            rw [henc] at h
            dsimp only at h
            injection h with _ h
            subst h
            refine ⟨_, by simp only [List.append_assoc]; rfl, ?_⟩
            simp [OwnedTail, isAllocation, isDecodeCall, isEncoderOutput,
              releasedOnlyAfterDecode]

/-- C10: on every returning exit of `webp_to_webp`, the input buffer is released
exactly once if it was allocated (and not at all otherwise); the decoder output
buffer is released exactly once if `WebPDecode` was called, never ahead of that
call and not at all otherwise; the encoder output buffer is released exactly
once if the encoder produced one and not at all otherwise. -/
theorem release_exactly_once (env : Env) (T status : Int) (tr : List Event)
    (h : webp_to_webp env T = some (Outcome.returned status tr)) :
    tr.count Event.free = (if tr.any isAllocation then 1 else 0) ∧
      tr.count Event.WebPFreeDecBuffer = (if tr.any isDecodeCall then 1 else 0) ∧
      releasedOnlyAfterDecode tr = true ∧
      tr.count Event.WebPFree = (if tr.any isEncoderOutput then 1 else 0) := by
  unfold webp_to_webp at h
  dsimp only at h
  split_ifs at h with h1 h2
  · injection h with h
    injection h with _ h
    subst h
    exact ⟨rfl, rfl, rfl, rfl⟩
  · injection h with h
    injection h with _ h
    subst h
    exact ⟨rfl, rfl, rfl, rfl⟩
  · cases hin : ingest env with
    | none => rw [hin] at h; cases h
    | some r =>
      obtain ⟨how, st⟩ := r
      rw [hin] at h
      obtain ⟨_, hd, ha, hf⟩ := ingest_spec env how st hin
      have hfree : OwnedTail [Event.free] := by
        simp [OwnedTail, isAllocation, isDecodeCall, isEncoderOutput, releasedOnlyAfterDecode]
      cases how with
      | abort =>
        dsimp only at h
        injection h with h
        injection h with _ h
        subst h
        obtain ⟨_, l, hl⟩ := ha rfl
        rw [hl]
        exact owned_of_tail _ l _ hfree
      | reallocFailed =>
        dsimp only at h
        injection h with h
        injection h with _ h
        subst h
        obtain ⟨_, l, hl⟩ := hf rfl
        rw [hl]
        exact owned_of_tail _ l _ hfree
      | done =>
        dsimp only at h
        injection h with h
        obtain ⟨tail, htr, htail⟩ := transcode_owned env _ _ _ st tr h
        obtain ⟨_, ⟨l, hl⟩, _⟩ := hd rfl
        rw [htr, hl]
        exact owned_of_tail _ l tail htail

theorem release_exactly_once_witness :
    webp_to_webp imageEnv 500 = some (Outcome.returned 0 successTrace) ∧
      successTrace.count Event.free = (if successTrace.any isAllocation then 1 else 0) ∧
      successTrace.count Event.WebPFreeDecBuffer =
        (if successTrace.any isDecodeCall then 1 else 0) ∧
      releasedOnlyAfterDecode successTrace = true ∧
      successTrace.count Event.WebPFree =
        (if successTrace.any isEncoderOutput then 1 else 0) :=
  ⟨rfl, release_exactly_once imageEnv 500 0 successTrace rfl⟩

end ImageWebp
